import Mathlib

/-!
Shallow embedding of the matching and recommendation engine of the
Adam-Painter-Booking repository (`src/backend/src/booking/booking.service.ts`
and `src/backend/src/db/schema.ts`).

The repository ships two iterations of `BookingService` in the same file,
separated by a document marker: the first (lines 1-347, called V1 below)
issues one conflicting-bookings query per availability slot and subtracts
busy ranges without a buffer; the second (lines 348-1017, the final version)
batches the conflict query over all candidate ids and subtracts busy ranges
with a one-minute buffer.

Timestamps are embedded as `Int` epoch milliseconds (JavaScript `Date`
comparisons and `getTime()` arithmetic).  Database tables are lists of rows;
drizzle `findMany` calls with a `where` clause become list filters that keep
the row order of the table, and `orderBy asc` becomes a sort by the ordered
column.  The painter relation join (`with: { painter: ... }`) is embedded as
the total name map `DB.names`.
-/

namespace PainterBooking

/-- Booking status enum from `db/schema.ts` (`booking_status`). -/
inductive BookingStatus where
  | confirmed
  | completed
  | cancelled
deriving DecidableEq, Repr

/-- A row of the `availability` table (id and createdAt omitted: the engine
never reads them). -/
structure Availability where
  painterId : String
  startTime : Int
  endTime : Int
deriving DecidableEq, Repr

/-- A row of the `bookings` table (id and createdAt omitted: the engine
never reads them). -/
structure Booking where
  customerId : String
  painterId : String
  startTime : Int
  endTime : Int
  status : BookingStatus
deriving DecidableEq, Repr

/-- The database state seen by `BookingService`: the `availability` and
`bookings` tables, plus the `users` name column reached through the
`painter` relation join (embedded as a total map from painter id to name). -/
structure DB where
  availability : List Availability
  bookings : List Booking
  names : String → String

/-- The `{ id, name }` records accumulated by `findAvailablePainters`. -/
structure Candidate where
  id : String
  name : String
deriving DecidableEq, Repr

/-- A time range `{ start, end }` as produced by `calculateFreeRanges`
(the source field `end` is a Lean keyword, rendered here as `stop`). -/
structure TimeRange where
  start : Int
  stop : Int
deriving DecidableEq, Repr

/-- The spec's half-open interval overlap test (§4.1):
`a.start < b.end && b.start < a.end`.  The final version of the code uses
this shape only when filtering bookings into an availability slot
(`booking.startTime < slot.endTime && booking.endTime > slot.startTime`). -/
def overlaps (aStart aStop bStart bStop : Int) : Prop :=
  aStart < bStop ∧ bStart < aStop

instance (aStart aStop bStart bStop : Int) :
    Decidable (overlaps aStart aStop bStart bStop) := by
  unfold overlaps; infer_instance

/-- The `where` clause of the conflicting-bookings query in
`findAvailablePainters` (both versions use the same clause):
`(b.startTime <= s && b.endTime >= s) || (b.startTime <= e && b.endTime >= e)
|| (b.startTime >= s && b.endTime <= e)`.  Note: closed-interval
comparisons, and no condition on `status`. -/
def ConflictWhere (b : Booking) (s e : Int) : Prop :=
  (b.startTime ≤ s ∧ s ≤ b.endTime) ∨
  (b.startTime ≤ e ∧ e ≤ b.endTime) ∨
  (s ≤ b.startTime ∧ b.endTime ≤ e)

instance (b : Booking) (s e : Int) : Decidable (ConflictWhere b s e) := by
  unfold ConflictWhere; infer_instance

/-- The availability query shared by both versions of
`findAvailablePainters`: slots with
`startTime <= requestStart && endTime >= requestEnd`. -/
def coveringSlots (db : DB) (startTime endTime : Int) : List Availability :=
  db.availability.filter fun a =>
    decide (a.startTime ≤ startTime ∧ endTime ≤ a.endTime)

/-- V1 `findAvailablePainters` (lines 88-133): for each covering slot,
issue one conflicting-bookings query for that slot's painter and keep the
painter when the query comes back empty. -/
def findAvailablePaintersV1 (db : DB) (startTime endTime : Int) :
    List Candidate :=
  (coveringSlots db startTime endTime).filterMap fun slot =>
    let conflictingBookings := db.bookings.filter fun b =>
      decide (b.painterId = slot.painterId ∧ ConflictWhere b startTime endTime)
    if conflictingBookings.isEmpty then
      some ⟨slot.painterId, db.names slot.painterId⟩
    else
      none

/-- Final `findAvailablePainters` (lines 564-644): fetch the covering
slots, early-return on none, fetch all conflicting bookings for all
candidate painter ids in one batched query, then filter the slots in
memory. -/
def findAvailablePainters (db : DB) (startTime endTime : Int) :
    List Candidate :=
  let availableSlots := coveringSlots db startTime endTime
  if availableSlots.isEmpty then
    []
  else
    let painterIds : List String := (availableSlots.map (·.painterId)).dedup
    let allConflictingBookings := db.bookings.filter fun b =>
      decide (b.painterId ∈ painterIds ∧ ConflictWhere b startTime endTime)
    availableSlots.filterMap fun slot =>
      if allConflictingBookings.any fun b =>
          decide (b.painterId = slot.painterId) then
        none
      else
        some ⟨slot.painterId, db.names slot.painterId⟩

/-- The loop of V1 `calculateFreeRanges` (lines 260-287), written as a
recursion over the sorted busy list.  `currentStart` is the sweep cursor;
each step emits the gap `[currentStart, booking.start)` when there is one
and advances the cursor to `booking.end` when that is larger; after the
loop the remaining `[currentStart, slotEnd)` is emitted when nonempty. -/
def freeRangesLoop (currentStart slotEnd : Int) :
    List TimeRange → List TimeRange
  | [] => if currentStart < slotEnd then [⟨currentStart, slotEnd⟩] else []
  | b :: rest =>
    let tail := freeRangesLoop
      (if currentStart < b.stop then b.stop else currentStart) slotEnd rest
    if currentStart < b.start then ⟨currentStart, b.start⟩ :: tail else tail

/-- V1 `calculateFreeRanges` (lines 251-290): empty busy list returns the
whole window, otherwise sort the busy ranges by start and sweep. -/
def calculateFreeRanges (slotStart slotEnd : Int)
    (bookings : List TimeRange) : List TimeRange :=
  if bookings.isEmpty then
    [⟨slotStart, slotEnd⟩]
  else
    freeRangesLoop slotStart slotEnd
      (List.insertionSort (fun a b : TimeRange => a.start ≤ b.start) bookings)

/-- The loop of the final `calculateFreeRanges` (lines 979-1013): same
sweep, but a gap is truncated to one minute (60000 ms) before the busy
range, is dropped when that leaves nothing, and the cursor jumps to one
minute after the busy range's end. -/
def freeRangesLoopBuffered (currentStart slotEnd : Int) :
    List Booking → List TimeRange
  | [] => if currentStart < slotEnd then [⟨currentStart, slotEnd⟩] else []
  | b :: rest =>
    let nextStart := b.endTime + 60000
    let tail := freeRangesLoopBuffered
      (if currentStart < nextStart then nextStart else currentStart)
      slotEnd rest
    if currentStart < b.startTime then
      let freeEnd := b.startTime - 60000
      if currentStart < freeEnd then ⟨currentStart, freeEnd⟩ :: tail else tail
    else
      tail

/-- Final `calculateFreeRanges` (lines 970-1016), with the one-minute
buffer around each busy range. -/
def calculateFreeRangesBuffered (slotStart slotEnd : Int)
    (bookings : List Booking) : List TimeRange :=
  if bookings.isEmpty then
    [⟨slotStart, slotEnd⟩]
  else
    freeRangesLoopBuffered slotStart slotEnd
      (List.insertionSort (fun a b : Booking => a.startTime ≤ b.startTime)
        bookings)

instance : IsTotal TimeRange fun a b => a.start ≤ b.start :=
  ⟨fun a b => le_total a.start b.start⟩

instance : IsTrans TimeRange fun a b => a.start ≤ b.start :=
  ⟨fun _ _ _ => le_trans⟩

/-- A candidate annotated with its booking count
(`{ ...painter, bookingCount }`). -/
structure CandidateWithCount where
  id : String
  name : String
  bookingCount : Nat
deriving DecidableEq, Repr

/-- Selection strategy modes of `selectPainterByStrategy`. -/
inductive Strategy where
  | most
  | least
deriving DecidableEq, Repr

/-- The per-painter booking count delivered by the grouped query of
`selectPainterByStrategy` (lines 702-723): the GROUP BY over
`bookings WHERE painterId IN candidateIds` followed by
`countsMap.get(painter.id) || 0`.  For a candidate id the net value is the
number of `bookings` rows carrying that painter id — painters absent from
the grouped result get zero, and no `status` condition is applied. -/
def countFor (db : DB) (painterId : String) : Nat :=
  (db.bookings.filter fun b => decide (b.painterId = painterId)).length

/-- The sort comparator of `selectPainterByStrategy` (lines 731-738) as a
non-strict total preorder: `a` may come before `b` iff the JS comparator
returns a non-positive number.  Primary key: booking count (descending for
`most`, ascending for `least`); tie-break: id ascending
(`localeCompare`, embedded as the lexicographic `String` order). -/
def strategyLE (strategy : Strategy) (a b : CandidateWithCount) : Prop :=
  match strategy with
  | .most =>
    b.bookingCount < a.bookingCount ∨
      (a.bookingCount = b.bookingCount ∧ a.id ≤ b.id)
  | .least =>
    a.bookingCount < b.bookingCount ∨
      (a.bookingCount = b.bookingCount ∧ a.id ≤ b.id)

instance (strategy : Strategy) :
    DecidableRel (strategyLE strategy) := fun a b => by
  cases strategy <;> · unfold strategyLE; infer_instance

instance (strategy : Strategy) :
    IsTotal CandidateWithCount (strategyLE strategy) where
  total a b := by
    cases strategy <;>
      · unfold strategyLE
        rcases lt_trichotomy a.bookingCount b.bookingCount with h | h | h
        · rcases le_total a.id b.id with h2 | h2 <;> simp [h, h.ne, h.ne.symm, h2]
        · rcases le_total a.id b.id with h2 | h2 <;> simp [h, h2]
        · rcases le_total a.id b.id with h2 | h2 <;> simp [h, h.ne, h.ne.symm, h2]

instance (strategy : Strategy) :
    IsTrans CandidateWithCount (strategyLE strategy) where
  trans a b c hab hbc := by
    cases strategy <;>
      · unfold strategyLE at hab hbc ⊢
        rcases hab with h1 | ⟨h1, h1'⟩ <;> rcases hbc with h2 | ⟨h2, h2'⟩
        · exact Or.inl (by omega)
        · exact Or.inl (by omega)
        · exact Or.inl (by omega)
        · exact Or.inr ⟨by omega, h1'.trans h2'⟩

/-- Final `selectPainterByStrategy` (lines 685-741): annotate every
candidate with its booking count (zero when absent from the grouped
result), sort by the strategy comparator, and take the first element
(`painterBookingCounts[0]`, which is absent — `none` — on an empty
candidate list). -/
def selectPainterByStrategy (db : DB) (availablePainters : List Candidate)
    (strategy : Strategy) : Option CandidateWithCount :=
  let painterBookingCounts := availablePainters.map fun p =>
    CandidateWithCount.mk p.id p.name (countFor db p.id)
  (List.insertionSort (strategyLE strategy) painterBookingCounts).head?

/-- `Math.abs` on embedded timestamps. -/
def mathAbs (x : Int) : Int := if x < 0 then -x else x

/-- One day in milliseconds (`24 * 60 * 60 * 1000`). -/
def millisPerDay : Int := 86400000

/-- The hard-coded absolute minimum slot duration of
`findClosestAvailableSlots` (line 813): `30 * 60 * 1000` ms. -/
def absoluteMinDuration : Int := 1800000

/-- The distance computation of the final `findClosestAvailableSlots`
(lines 921-933), applied to the clipped start (`adjustedStart`) and the
free range's end. -/
def slotDistance (reqStart reqEnd adjustedStart rangeEnd : Int) : Int :=
  if rangeEnd ≤ reqStart then reqStart - rangeEnd
  else if reqEnd ≤ adjustedStart then adjustedStart - reqEnd
  else mathAbs (adjustedStart - reqStart)

/-- An element of the `freeSlots` array built by
`findClosestAvailableSlots` (lines 872-944). -/
structure FreeSlotEntry where
  painterId : String
  painterName : String
  startTime : Int
  endTime : Int
  duration : Int
  distanceFromRequested : Int
  isShorterThanRequested : Bool
deriving DecidableEq, Repr

/-- A recommendation as projected and returned by
`findClosestAvailableSlots` (lines 962-967). -/
structure Recommendation where
  painterId : String
  painterName : String
  startTime : Int
  endTime : Int
deriving DecidableEq, Repr

/-- The externally supplied configuration read by
`findClosestAvailableSlots` via `ConfigService`. -/
structure RecConfig where
  windowDays : Int
  minSlotDurationPercent : Int
deriving DecidableEq, Repr

/-- The inner loop body of `findClosestAvailableSlots` for one
availability slot (lines 882-944): filter the painter's bookings to those
overlapping the slot, compute buffered free ranges, drop ranges that have
already ended, clip starts that lie in the past forward to `now`, drop
ranges shorter than the effective minimum duration, and record the entry.

The source compares `rangeDuration < max(requestedDuration * (pct / 100),
30 * 60 * 1000)` with JS number arithmetic; the comparison against the
percentage term is embedded exactly over the integers by
cross-multiplication with 100. -/
def slotEntries (db : DB) (now reqStart reqEnd : Int)
    (minDurationPercent requestedDuration : Int) (slot : Availability)
    (painterBookings : List Booking) : List FreeSlotEntry :=
  let bookingsInSlot := painterBookings.filter fun b =>
    decide (b.startTime < slot.endTime ∧ slot.startTime < b.endTime)
  let freeRanges :=
    calculateFreeRangesBuffered slot.startTime slot.endTime bookingsInSlot
  freeRanges.filterMap fun range =>
    if range.stop ≤ now then
      none
    else
      let adjustedStart := if range.start < now then now else range.start
      let rangeDuration := range.stop - adjustedStart
      if rangeDuration * 100 < requestedDuration * minDurationPercent ∨
          rangeDuration < absoluteMinDuration then
        none
      else
        some
          { painterId := slot.painterId
            painterName := db.names slot.painterId
            startTime := adjustedStart
            endTime := range.stop
            duration := rangeDuration
            distanceFromRequested :=
              slotDistance reqStart reqEnd adjustedStart range.stop
            isShorterThanRequested :=
              decide (rangeDuration < requestedDuration) }

/-- The sort comparator over `freeSlots` (lines 948-959) as a non-strict
total preorder: distance ascending, then full-duration entries before
shorter-than-requested ones, then duration descending. -/
def recommendationLE (a b : FreeSlotEntry) : Prop :=
  a.distanceFromRequested < b.distanceFromRequested ∨
    (a.distanceFromRequested = b.distanceFromRequested ∧
      ((a.isShorterThanRequested = false ∧ b.isShorterThanRequested = true) ∨
        (a.isShorterThanRequested = b.isShorterThanRequested ∧
          b.duration ≤ a.duration)))

instance : DecidableRel recommendationLE := fun a b => by
  unfold recommendationLE; infer_instance

instance : IsTotal FreeSlotEntry recommendationLE where
  total a b := by
    unfold recommendationLE
    rcases lt_trichotomy a.distanceFromRequested b.distanceFromRequested with
      h | h | h
    · exact Or.inl (Or.inl h)
    · rcases Bool.eq_false_or_eq_true a.isShorterThanRequested with ha | ha <;>
        rcases Bool.eq_false_or_eq_true b.isShorterThanRequested with
          hb | hb <;>
        rcases le_total a.duration b.duration with hd | hd <;>
        simp [h, ha, hb, hd]
    · exact Or.inr (Or.inl h)

instance : IsTrans FreeSlotEntry recommendationLE where
  trans a b c hab hbc := by
    unfold recommendationLE at hab hbc ⊢
    rcases hab with h1 | ⟨h1, h1'⟩ <;> rcases hbc with h2 | ⟨h2, h2'⟩
    · exact Or.inl (by omega)
    · exact Or.inl (by omega)
    · exact Or.inl (by omega)
    · refine Or.inr ⟨by omega, ?_⟩
      rcases h1' with ⟨ha, hb⟩ | ⟨hab', hd⟩ <;>
        rcases h2' with ⟨hb', hc⟩ | ⟨hbc', hd'⟩
      · simp [hb] at hb'
      · exact Or.inl ⟨ha, hbc' ▸ hb⟩
      · exact Or.inl ⟨hab'.trans hb', hc⟩
      · exact Or.inr ⟨hab'.trans hbc', hd'.trans hd⟩

/-- The windowed availability query of `findClosestAvailableSlots`
(lines 820-833): slots still ending in the future and starting no later
than `windowEnd`. -/
def windowedSlots (db : DB) (now windowEnd : Int) : List Availability :=
  db.availability.filter fun a =>
    decide (now < a.endTime ∧ a.startTime ≤ windowEnd)

/-- The entries accumulated into `freeSlots` across all windowed slots
(lines 840-945), before sorting and truncation: the windowed bookings are
fetched for the touched painter ids in one batched, start-ordered query,
grouped by painter, and each slot is processed by `slotEntries`. -/
def recommendationEntries (cfg : RecConfig) (now : Int) (db : DB)
    (startTime endTime : Int) : List FreeSlotEntry :=
  let requestedDuration := endTime - startTime
  let windowDays := max 1 cfg.windowDays
  let windowEnd := startTime + windowDays * millisPerDay
  let minDurationPercent := max 1 (min 100 cfg.minSlotDurationPercent)
  let allSlots := windowedSlots db now windowEnd
  let painterIds : List String := (allSlots.map (·.painterId)).dedup
  let allBookings :=
    List.insertionSort (fun a b : Booking => a.startTime ≤ b.startTime)
      (db.bookings.filter fun b =>
        decide (b.painterId ∈ painterIds ∧ now < b.endTime ∧
          b.startTime ≤ windowEnd))
  (allSlots.map fun slot =>
    slotEntries db now startTime endTime minDurationPercent requestedDuration
      slot (allBookings.filter fun b =>
        decide (b.painterId = slot.painterId))).flatten

/-- Final `findClosestAvailableSlots` (lines 780-968): early-return on an
empty windowed slot set, otherwise sort the accumulated entries by the
comparator, take the top 10 and project to the wire shape. -/
def findClosestAvailableSlots (cfg : RecConfig) (now : Int) (db : DB)
    (startTime endTime : Int) : List Recommendation :=
  let windowEnd := startTime + (max 1 cfg.windowDays) * millisPerDay
  if (windowedSlots db now windowEnd).isEmpty then
    []
  else
    ((List.insertionSort recommendationLE
        (recommendationEntries cfg now db startTime endTime)).take 10).map
      fun s =>
        { painterId := s.painterId
          painterName := s.painterName
          startTime := s.startTime
          endTime := s.endTime }

/-- The collaborator calls a request can issue, used to record the effect
trace of `createBookingRequest`. -/
inductive DbCall where
  | coveringAvailabilityQuery
  | conflictingBookingsQuery
  | bookingCountsQuery
  | windowedAvailabilityQuery
  | windowedBookingsQuery
  | insertBookingWrite
  | painterLookupQuery
deriving DecidableEq, Repr

/-- The queries awaited inside the final `findAvailablePainters`: the
covering-availability query always runs; the batched conflict query runs
only past the early return. -/
def findAvailablePaintersCalls (db : DB) (startTime endTime : Int) :
    List DbCall :=
  if (coveringSlots db startTime endTime).isEmpty then
    [.coveringAvailabilityQuery]
  else
    [.coveringAvailabilityQuery, .conflictingBookingsQuery]

/-- The queries awaited inside the final `findClosestAvailableSlots`: the
windowed availability query always runs; the windowed bookings query runs
only past the early return. -/
def findClosestAvailableSlotsCalls (cfg : RecConfig) (now : Int) (db : DB)
    (startTime : Int) : List DbCall :=
  let windowEnd := startTime + (max 1 cfg.windowDays) * millisPerDay
  if (windowedSlots db now windowEnd).isEmpty then
    [.windowedAvailabilityQuery]
  else
    [.windowedAvailabilityQuery, .windowedBookingsQuery]

/-- The tagged outcome of `createBookingRequest`: the 400
`BadRequestException`, the 404 `NotFoundException` carrying
recommendations, or the success payload.  `crash` renders the JS
`TypeError` that indexing `painterBookingCounts[0]` on an empty candidate
list would raise (unreachable from the orchestrator). -/
inductive Outcome where
  | invalid (message : String)
  | noMatch (error : String) (recommendations : List Recommendation)
  | assigned (painterId painterName : String) (startTime endTime : Int)
      (status : BookingStatus)
  | crash
deriving DecidableEq, Repr

/-- Final `createBookingRequest` (lines 374-442): validate the range,
run the matcher, and either return the no-match outcome with
recommendations or select a painter, insert the booking and return the
success payload.  The result carries the updated database and the trace of
collaborator calls issued, in order. -/
def createBookingRequest (cfg : RecConfig) (now : Int) (db : DB)
    (customerId : String) (startTime endTime : Int) :
    Outcome × DB × List DbCall :=
  if endTime ≤ startTime then
    (.invalid "Start time must be before end time", db, [])
  else
    let availablePainters := findAvailablePainters db startTime endTime
    let matchCalls := findAvailablePaintersCalls db startTime endTime
    if availablePainters.isEmpty then
      let recommendations := findClosestAvailableSlots cfg now db startTime
        endTime
      (.noMatch "No painters are available for the requested time slot."
          recommendations,
        db,
        matchCalls ++ findClosestAvailableSlotsCalls cfg now db startTime)
    else
      match selectPainterByStrategy db availablePainters .most with
      | none => (.crash, db, matchCalls ++ [.bookingCountsQuery])
      | some selectedPainter =>
        let booking : Booking :=
          { customerId := customerId
            painterId := selectedPainter.id
            startTime := startTime
            endTime := endTime
            status := .confirmed }
        (.assigned selectedPainter.id (db.names selectedPainter.id)
            startTime endTime .confirmed,
          { db with bookings := db.bookings ++ [booking] },
          matchCalls ++
            [.bookingCountsQuery, .insertBookingWrite, .painterLookupQuery])

/-! Concrete database states used as counterexamples and witnesses. -/

/-- Painter `a` declares availability `[0, 10000)` and has one cancelled
booking `[2000, 3000)`. -/
def exDbCancelled : DB :=
  ⟨[⟨"a", 0, 10000⟩], [⟨"c", "a", 2000, 3000, .cancelled⟩], fun _ => "A"⟩

/-- Painter `a` declares availability `[0, 100)` and has one confirmed
booking `[0, 10)` that ends exactly at 10. -/
def exDbTouching : DB :=
  ⟨[⟨"a", 0, 100⟩], [⟨"c", "a", 0, 10, .confirmed⟩], fun _ => "A"⟩

/-- One cancelled booking for painter `b`; no confirmed bookings at all. -/
def exDbTieBreak : DB :=
  ⟨[], [⟨"c", "b", 0, 1, .cancelled⟩], fun _ => "N"⟩

/-- Painter `p1` declares availability `[1h, 5h)` (in ms) and has no
bookings. -/
def exDbOverlapRec : DB :=
  ⟨[⟨"p1", 3600000, 18000000⟩], [], fun _ => "P"⟩

/-- A database with no availability and no bookings. -/
def exDbEmpty : DB := ⟨[], [], fun _ => "X"⟩

/-- Painter `a` available `[0, 10^7)` with a confirmed booking
`[2000000, 3000000)`; painter `b` available `[0, 10^7)` with no
bookings. -/
def exDbTwoPainters : DB :=
  ⟨[⟨"a", 0, 10000000⟩, ⟨"b", 0, 10000000⟩],
   [⟨"c", "a", 2000000, 3000000, .confirmed⟩], fun p => p ++ "-name"⟩

/-- The default configuration (`RECOMMENDATION_WINDOW_DAYS = 7`,
`MIN_SLOT_DURATION_PERCENT = 50`). -/
def defaultConfig : RecConfig := ⟨7, 50⟩

/-! ### Conflict detector lemmas -/

/-- For a valid booking and a valid request range, the three-disjunct
`where` clause of the conflicting-bookings query is exactly the
closed-interval overlap test. -/
theorem conflictWhere_iff_closed (b : Booking) (s e : Int)
    (hb : b.startTime ≤ b.endTime) (hse : s ≤ e) :
    ConflictWhere b s e ↔ b.startTime ≤ e ∧ s ≤ b.endTime := by
  unfold ConflictWhere
  omega

theorem mem_coveringSlots {db : DB} {s e : Int} {a : Availability} :
    a ∈ coveringSlots db s e ↔
      a ∈ db.availability ∧ a.startTime ≤ s ∧ e ≤ a.endTime := by
  simp [coveringSlots, List.mem_filter]

/-- The batched membership test of the final `findAvailablePainters` is,
for every covering slot, the per-painter conflict existence check. -/
theorem batched_any_iff (db : DB) (s e : Int) (slot : Availability)
    (hslot : slot ∈ coveringSlots db s e) :
    ((db.bookings.filter fun b =>
        decide (b.painterId ∈
            ((coveringSlots db s e).map (·.painterId)).dedup ∧
          ConflictWhere b s e)).any
      fun b => decide (b.painterId = slot.painterId)) = true ↔
      ∃ b ∈ db.bookings, b.painterId = slot.painterId ∧
        ConflictWhere b s e := by
  simp only [List.any_eq_true, List.mem_filter, decide_eq_true_eq,
    List.mem_dedup, List.mem_map]
  constructor
  · rintro ⟨b, ⟨hb, _, hcw⟩, hid⟩
    exact ⟨b, hb, hid, hcw⟩
  · rintro ⟨b, hb, hid, hcw⟩
    exact ⟨b, ⟨hb, ⟨slot, hslot, hid.symm⟩, hcw⟩, hid⟩

theorem perPainter_empty_iff (db : DB) (s e : Int) (slot : Availability) :
    ((db.bookings.filter fun b =>
        decide (b.painterId = slot.painterId ∧
          ConflictWhere b s e)).isEmpty = true) ↔
      ¬ ∃ b ∈ db.bookings, b.painterId = slot.painterId ∧
        ConflictWhere b s e := by
  simp [List.isEmpty_iff, List.filter_eq_nil_iff]

/-- Membership characterization of the final `findAvailablePainters`:
a candidate is returned exactly for a covering slot whose painter has no
booking matched by the conflict clause. -/
theorem mem_findAvailablePainters {db : DB} {s e : Int} {c : Candidate} :
    c ∈ findAvailablePainters db s e ↔
      ∃ slot ∈ coveringSlots db s e,
        c = ⟨slot.painterId, db.names slot.painterId⟩ ∧
        ¬ ∃ b ∈ db.bookings, b.painterId = slot.painterId ∧
          ConflictWhere b s e := by
  unfold findAvailablePainters
  by_cases hempty : (coveringSlots db s e).isEmpty
  · have h0 : coveringSlots db s e = [] := List.isEmpty_iff.mp hempty
    simp [h0]
  · simp only [hempty, Bool.false_eq_true, if_false, List.mem_filterMap]
    constructor
    · rintro ⟨slot, hslot, hbody⟩
      by_cases hany : ((db.bookings.filter fun b =>
          decide (b.painterId ∈
              ((coveringSlots db s e).map (·.painterId)).dedup ∧
            ConflictWhere b s e)).any
        fun b => decide (b.painterId = slot.painterId)) = true
      · rw [if_pos hany] at hbody
        exact absurd hbody (by simp)
      · rw [if_neg hany] at hbody
        refine ⟨slot, hslot, (Option.some.injEq _ _).mp hbody.symm, ?_⟩
        exact fun hex => hany ((batched_any_iff db s e slot hslot).mpr hex)
    · rintro ⟨slot, hslot, hc, hnone⟩
      refine ⟨slot, hslot, ?_⟩
      rw [if_neg fun hany =>
        hnone ((batched_any_iff db s e slot hslot).mp hany)]
      exact congrArg some hc.symm

/-- C7 pointwise step: the two loop bodies agree on every covering slot. -/
theorem v1_body_eq_v2_body (db : DB) (s e : Int) (slot : Availability)
    (hslot : slot ∈ coveringSlots db s e) :
    (if (db.bookings.filter fun b =>
          decide (b.painterId = slot.painterId ∧
            ConflictWhere b s e)).isEmpty then
        some (⟨slot.painterId, db.names slot.painterId⟩ : Candidate)
      else none) =
    (if (db.bookings.filter fun b =>
          decide (b.painterId ∈
              ((coveringSlots db s e).map (·.painterId)).dedup ∧
            ConflictWhere b s e)).any
        fun b => decide (b.painterId = slot.painterId) then
        none
      else some ⟨slot.painterId, db.names slot.painterId⟩) := by
  by_cases hex : ∃ b ∈ db.bookings, b.painterId = slot.painterId ∧
      ConflictWhere b s e
  · have h1 : ¬ ((db.bookings.filter fun b =>
        decide (b.painterId = slot.painterId ∧
          ConflictWhere b s e)).isEmpty = true) :=
      fun h => (perPainter_empty_iff db s e slot).mp h hex
    rw [if_neg h1, if_pos ((batched_any_iff db s e slot hslot).mpr hex)]
  · rw [if_pos ((perPainter_empty_iff db s e slot).mpr hex),
      if_neg fun hany => hex ((batched_any_iff db s e slot hslot).mp hany)]

/-- C7: the batched conflict query of the final `findAvailablePainters`
is behavior-preserving: it returns the same candidate list, in the same
order, as the first version's one-query-per-availability-slot variant, on
every database state and request range. -/
theorem c7_batched_equals_per_slot (db : DB) (s e : Int) :
    findAvailablePaintersV1 db s e = findAvailablePainters db s e := by
  unfold findAvailablePaintersV1 findAvailablePainters
  by_cases hempty : (coveringSlots db s e).isEmpty
  · have h0 : coveringSlots db s e = [] := List.isEmpty_iff.mp hempty
    simp [h0]
  · simp only [hempty, Bool.false_eq_true, if_false]
    exact List.filterMap_congr fun slot hslot =>
      v1_body_eq_v2_body db s e slot hslot

/-- C1 counterexample: painter `a` has a covering availability window and
no confirmed commitment at all (the only booking is cancelled), yet the
matcher excludes `a`: the conflict query ignores `status`. -/
theorem c1_counterexample :
    findAvailablePainters exDbCancelled 1000 4000 = [] ∧
    coveringSlots exDbCancelled 1000 4000 = [⟨"a", 0, 10000⟩] ∧
    (∀ b ∈ exDbCancelled.bookings, b.status ≠ .confirmed) := by
  decide

/-- C1 (amended): for a provider with a covering availability window, the
matcher excludes it iff it has at least one commitment of any status whose
closed-interval span meets the request range
(`commitment.start ≤ request.end ∧ request.start ≤ commitment.end`);
cancelled and completed commitments disqualify exactly like confirmed
ones. -/
theorem c1_matcher_excludes_iff (db : DB) (s e : Int) (p : String)
    (hse : s ≤ e)
    (hval : ∀ b ∈ db.bookings, b.startTime ≤ b.endTime)
    (hcov : ∃ a ∈ db.availability,
      a.painterId = p ∧ a.startTime ≤ s ∧ e ≤ a.endTime) :
    (¬ ∃ c ∈ findAvailablePainters db s e, c.id = p) ↔
      ∃ b ∈ db.bookings, b.painterId = p ∧
        b.startTime ≤ e ∧ s ≤ b.endTime := by
  obtain ⟨a, ha, hap, has, hae⟩ := hcov
  have haslot : a ∈ coveringSlots db s e :=
    mem_coveringSlots.mpr ⟨ha, has, hae⟩
  constructor
  · intro hnone
    by_contra hnc
    refine hnone ⟨⟨a.painterId, db.names a.painterId⟩, ?_, hap⟩
    refine mem_findAvailablePainters.mpr ⟨a, haslot, rfl, ?_⟩
    rintro ⟨b, hb, hbp, hcw⟩
    exact hnc ⟨b, hb, hap ▸ hbp,
      ((conflictWhere_iff_closed b s e (hval b hb) hse).mp hcw).1,
      ((conflictWhere_iff_closed b s e (hval b hb) hse).mp hcw).2⟩
  · rintro ⟨b, hb, hbp, hb1, hb2⟩ ⟨c, hc, hcp⟩
    obtain ⟨slot, _, hcEq, hnc⟩ := mem_findAvailablePainters.mp hc
    refine hnc ⟨b, hb, ?_, ?_⟩
    · have : c.id = slot.painterId := by rw [hcEq]
      rw [hbp, ← hcp, this]
    · exact (conflictWhere_iff_closed b s e (hval b hb) hse).mpr ⟨hb1, hb2⟩

/-- C1 witness: the amended characterization applied to the concrete
database `exDbTouching` at request `[10, 50)`. -/
theorem c1_witness :
    ((10 : Int) ≤ 50) ∧
    ((¬ ∃ c ∈ findAvailablePainters exDbTouching 10 50, c.id = "a") ↔
      ∃ b ∈ exDbTouching.bookings, b.painterId = "a" ∧
        b.startTime ≤ 50 ∧ (10 : Int) ≤ b.endTime) :=
  ⟨by decide,
    c1_matcher_excludes_iff exDbTouching 10 50 "a" (by decide) (by decide)
      (by decide)⟩

/-- C2 counterexample: a confirmed commitment `[0, 10)` ending exactly at
the request start `10` is flagged by the conflict clause and disqualifies
its provider, although the half-open overlap test of the claim is false
for it. -/
theorem c2_counterexample :
    ConflictWhere ⟨"c", "a", 0, 10, .confirmed⟩ 10 50 ∧
    ¬ overlaps 0 10 10 50 ∧
    coveringSlots exDbTouching 10 50 = [⟨"a", 0, 100⟩] ∧
    findAvailablePainters exDbTouching 10 50 = [] := by
  decide

/-- C2 (amended): the conflict clause flags a valid commitment against a
valid request range exactly when `commitment.start ≤ request.end` and
`request.start ≤ commitment.end` (closed-interval semantics): a commitment
that ends exactly at the request start, or starts exactly at the request
end, IS a conflict and disqualifies its provider. -/
theorem c2_conflict_iff_closed_overlap (b : Booking) (s e : Int)
    (hb : b.startTime ≤ b.endTime) (hse : s ≤ e) :
    ConflictWhere b s e ↔ b.startTime ≤ e ∧ s ≤ b.endTime :=
  conflictWhere_iff_closed b s e hb hse

/-- C2 witness: the amended equivalence at the boundary commitment
`[0, 10)` against request `[10, 50)`. -/
theorem c2_witness :
    (((0 : Int) ≤ 10) ∧ ((10 : Int) ≤ 50)) ∧
    (ConflictWhere ⟨"c", "a", 0, 10, .confirmed⟩ 10 50 ↔
      ((0 : Int) ≤ 50 ∧ (10 : Int) ≤ 10)) :=
  ⟨by decide,
    c2_conflict_iff_closed_overlap ⟨"c", "a", 0, 10, .confirmed⟩ 10 50
      (by decide) (by decide)⟩

/-! ### Selection strategy -/

/-- The first element of an insertion sort under a total, transitive
preorder is related to every list element. -/
theorem head_insertionSort_min {α : Type _} (r : α → α → Prop)
    [DecidableRel r] [IsTotal α r] [IsTrans α r] (l : List α) (c : α)
    (hc : (List.insertionSort r l).head? = some c) :
    c ∈ l ∧ ∀ x ∈ l, r c x := by
  obtain ⟨t, ht⟩ := List.head?_eq_some_iff.mp hc
  have hsorted := List.sorted_insertionSort r l
  rw [ht] at hsorted
  have hperm := List.perm_insertionSort r l
  constructor
  · exact hperm.mem_iff.mp (by rw [ht]; exact List.mem_cons_self c t)
  · intro x hx
    have hx' : x ∈ c :: t := by rw [← ht]; exact hperm.mem_iff.mpr hx
    rcases List.mem_cons.mp hx' with h | h
    · rw [h]; exact (total_of r c c).elim id id
    · exact (List.pairwise_cons.mp hsorted).1 x h

/-- C3 counterexample: candidates `a` and `b` both have zero confirmed
commitments (the only booking of `b` is cancelled), so under the claim the
tie must resolve to the lexicographically smaller id `a`; the code counts
the cancelled booking and selects `b`. -/
theorem c3_counterexample :
    selectPainterByStrategy exDbTieBreak [⟨"a", "A"⟩, ⟨"b", "B"⟩] .most =
      some ⟨"b", "B", 1⟩ ∧
    (exDbTieBreak.bookings.filter fun b =>
      decide (b.painterId = "a" ∧ b.status = .confirmed)).length = 0 ∧
    (exDbTieBreak.bookings.filter fun b =>
      decide (b.painterId = "b" ∧ b.status = .confirmed)).length = 0 ∧
    ("a" : String) < "b" := by
  refine ⟨by decide, by decide, by decide, ?_⟩
  rw [String.lt_iff_toList_lt]
  decide

/-- C3 (amended): for every non-empty candidate list, the strategy with
mode `most` returns the first element of the list sorted by TOTAL
commitment count (commitments of every status, cancelled and completed
included) descending and then by provider id ascending; candidates absent
from the grouped count result are treated as having count zero, so the
choice is deterministic and ties always resolve to the lexicographically
smallest id. -/
theorem c3_select_most_returns_max_total_count (db : DB)
    (candidates : List Candidate) (h : candidates ≠ []) :
    ∃ c, selectPainterByStrategy db candidates .most = some c ∧
      (∃ p ∈ candidates, c = ⟨p.id, p.name, countFor db p.id⟩) ∧
      ∀ p ∈ candidates, countFor db p.id < c.bookingCount ∨
        (countFor db p.id = c.bookingCount ∧ c.id ≤ p.id) := by
  unfold selectPainterByStrategy
  have hne : (candidates.map fun p =>
      CandidateWithCount.mk p.id p.name (countFor db p.id)) ≠ [] := by
    simpa using h
  obtain ⟨c, hc⟩ : ∃ c, (List.insertionSort (strategyLE .most)
      (candidates.map fun p =>
        CandidateWithCount.mk p.id p.name (countFor db p.id))).head? =
        some c := by
    cases hs : List.insertionSort (strategyLE .most)
        (candidates.map fun p =>
          CandidateWithCount.mk p.id p.name (countFor db p.id)) with
    | nil =>
      exfalso
      have hperm := List.perm_insertionSort (strategyLE .most)
        (candidates.map fun p =>
          CandidateWithCount.mk p.id p.name (countFor db p.id))
      rw [hs] at hperm
      exact hne hperm.symm.eq_nil
    | cons a t => exact ⟨a, rfl⟩
  have hmin := head_insertionSort_min (strategyLE .most) _ c hc
  refine ⟨c, hc, ?_, ?_⟩
  · obtain ⟨p, hp, hpc⟩ := List.mem_map.mp hmin.1
    exact ⟨p, hp, hpc.symm⟩
  · intro p hp
    have hx := hmin.2 _ (List.mem_map_of_mem _ hp)
    rcases hx with h1 | ⟨h1, h2⟩
    · exact Or.inl h1
    · exact Or.inr ⟨h1.symm, h2⟩

/-- C3 witness: the amended selection property on a concrete singleton
candidate list over the empty database. -/
theorem c3_witness :
    ([(⟨"a", "A"⟩ : Candidate)] ≠ []) ∧
    (∃ c, selectPainterByStrategy exDbEmpty [⟨"a", "A"⟩] .most = some c ∧
      (∃ p ∈ [(⟨"a", "A"⟩ : Candidate)],
        c = ⟨p.id, p.name, countFor exDbEmpty p.id⟩) ∧
      ∀ p ∈ [(⟨"a", "A"⟩ : Candidate)],
        countFor exDbEmpty p.id < c.bookingCount ∨
          (countFor exDbEmpty p.id = c.bookingCount ∧ c.id ≤ p.id)) :=
  ⟨by decide,
    c3_select_most_returns_max_total_count exDbEmpty [⟨"a", "A"⟩]
      (by decide)⟩

/-! ### Orchestrator -/

/-- C8: `createBookingRequest` rejects `start >= end` with the message
`Start time must be before end time` before issuing any collaborator call
(the trace is empty) and without touching the database; for `start < end`
that validation outcome is never produced. -/
theorem c8_validation_first (cfg : RecConfig) (now : Int) (db : DB)
    (customerId : String) (s e : Int) :
    (e ≤ s → createBookingRequest cfg now db customerId s e =
      (.invalid "Start time must be before end time", db, [])) ∧
    (s < e → ∀ m,
      (createBookingRequest cfg now db customerId s e).1 ≠ .invalid m) := by
  constructor
  · intro h
    unfold createBookingRequest
    rw [if_pos h]
  · intro h m
    simp only [createBookingRequest]
    rw [if_neg (not_le.mpr h)]
    split
    · simp
    · split <;> simp

/-- C8 witness: a request with `start = end = 5` on the empty database is
rejected with the validation message, an unchanged database and an empty
call trace. -/
theorem c8_witness :
    ((5 : Int) ≤ 5) ∧
    createBookingRequest defaultConfig 0 exDbEmpty "c" 5 5 =
      (.invalid "Start time must be before end time", exDbEmpty, []) :=
  ⟨by decide,
    (c8_validation_first defaultConfig 0 exDbEmpty "c" 5 5).1 (by decide)⟩

/-- C9: whenever the matcher returns zero candidates, the orchestrator
returns the no-match outcome carrying the recommendation list (a list is
always structurally present in that outcome, possibly empty) and leaves
the database unchanged (no Commitment persisted); and when no provider
has any availability at all the carried recommendation list is empty. -/
theorem c9_no_match_outcome (cfg : RecConfig) (now : Int) (db : DB)
    (customerId : String) (s e : Int) (hse : s < e)
    (hm : findAvailablePainters db s e = []) :
    createBookingRequest cfg now db customerId s e =
      (.noMatch "No painters are available for the requested time slot."
        (findClosestAvailableSlots cfg now db s e), db,
       findAvailablePaintersCalls db s e ++
         findClosestAvailableSlotsCalls cfg now db s) ∧
    (db.availability = [] → findClosestAvailableSlots cfg now db s e = []) := by
  constructor
  · simp only [createBookingRequest]
    rw [if_neg (not_le.mpr hse), hm]
    simp
  · intro h0
    unfold findClosestAvailableSlots windowedSlots
    rw [h0]
    simp

/-- C9 witness: the no-match outcome on the completely empty database,
with an empty recommendation list. -/
theorem c9_witness :
    ((0 : Int) < 3600000) ∧
    createBookingRequest defaultConfig 0 exDbEmpty "c" 0 3600000 =
      (.noMatch "No painters are available for the requested time slot."
        (findClosestAvailableSlots defaultConfig 0 exDbEmpty 0 3600000),
       exDbEmpty,
       findAvailablePaintersCalls exDbEmpty 0 3600000 ++
         findClosestAvailableSlotsCalls defaultConfig 0 exDbEmpty 0) :=
  ⟨by decide,
    (c9_no_match_outcome defaultConfig 0 exDbEmpty "c" 0 3600000
      (by decide) (by decide)).1⟩

/-! ### Recommendation engine -/

/-- Pipeline invariant: every entry accumulated into `freeSlots` has its
`duration` equal to its span measured from the clipped start, a start not
before `now`, a duration meeting both parts of the effective minimum
(the absolute 30-minute floor, and the percentage of the requested
duration stated by exact integer cross-multiplication), a distance equal
to the `slotDistance` formula on its own fields, and the shortness flag
computed from its duration. -/
theorem mem_recommendationEntries_inv (cfg : RecConfig) (now : Int)
    (db : DB) (s e : Int) (x : FreeSlotEntry)
    (hx : x ∈ recommendationEntries cfg now db s e) :
    x.duration = x.endTime - x.startTime ∧
    now ≤ x.startTime ∧
    absoluteMinDuration ≤ x.duration ∧
    (e - s) * (max 1 (min 100 cfg.minSlotDurationPercent)) ≤
      x.duration * 100 ∧
    x.distanceFromRequested = slotDistance s e x.startTime x.endTime := by
  simp only [recommendationEntries, List.mem_flatten, List.mem_map] at hx
  obtain ⟨lst, ⟨slot, hslot, hlst⟩, hxl⟩ := hx
  rw [← hlst] at hxl
  simp only [slotEntries, List.mem_filterMap] at hxl
  obtain ⟨range, hrange, hfx⟩ := hxl
  by_cases h1 : range.stop ≤ now
  · rw [if_pos h1] at hfx
    exact absurd hfx (by simp)
  · rw [if_neg h1] at hfx
    by_cases h2 :
        (range.stop - (if range.start < now then now else range.start)) *
            100 <
          (e - s) * (max 1 (min 100 cfg.minSlotDurationPercent)) ∨
        range.stop - (if range.start < now then now else range.start) <
          absoluteMinDuration
    · rw [if_pos h2] at hfx
      exact absurd hfx (by simp)
    · rw [if_neg h2] at hfx
      push_neg at h2
      obtain ⟨h2a, h2b⟩ := h2
      have hEq := Option.some_inj.mp hfx
      subst hEq
      refine ⟨rfl, ?_, h2b, h2a, rfl⟩
      by_cases h3 : range.start < now
      · simp [h3]
      · simp only [h3, if_false]
        omega

/-- Every recommendation returned by `findClosestAvailableSlots`
projects an entry of the pre-sort pipeline. -/
theorem mem_findClosestAvailableSlots (cfg : RecConfig) (now : Int)
    (db : DB) (s e : Int) (r : Recommendation)
    (hr : r ∈ findClosestAvailableSlots cfg now db s e) :
    ∃ x ∈ recommendationEntries cfg now db s e,
      r = ⟨x.painterId, x.painterName, x.startTime, x.endTime⟩ := by
  simp only [findClosestAvailableSlots] at hr
  by_cases h0 : (windowedSlots db now
      (s + (max 1 cfg.windowDays) * millisPerDay)).isEmpty
  · rw [if_pos h0] at hr
    exact absurd hr (by simp)
  · rw [if_neg h0] at hr
    obtain ⟨x, hx, hrx⟩ := List.mem_map.mp hr
    have hx2 : x ∈ List.insertionSort recommendationLE
        (recommendationEntries cfg now db s e) :=
      (List.take_sublist 10 _).mem hx
    exact ⟨x, (List.mem_insertionSort _).mp hx2, hrx.symm⟩

/-- C5: every returned recommendation's span meets both parts of the
effective minimum duration — the 30-minute absolute floor, and
`requestedDuration * minDurationPercent / 100` stated exactly over the
integers by cross-multiplication with 100 (together: the span is at least
`max(floor, requestedDuration * percent / 100)`) — and the returned list
is sorted by non-decreasing distance from the request (the distance of a
returned record is recomputed by `slotDistance` from its own fields,
which coincides with the sort key used by the code). -/
theorem c5_min_duration_and_sorted (cfg : RecConfig) (now : Int) (db : DB)
    (s e : Int) :
    (∀ r ∈ findClosestAvailableSlots cfg now db s e,
      absoluteMinDuration ≤ r.endTime - r.startTime ∧
      (e - s) * (max 1 (min 100 cfg.minSlotDurationPercent)) ≤
        (r.endTime - r.startTime) * 100) ∧
    List.Pairwise (fun r1 r2 : Recommendation =>
      slotDistance s e r1.startTime r1.endTime ≤
        slotDistance s e r2.startTime r2.endTime)
      (findClosestAvailableSlots cfg now db s e) := by
  constructor
  · intro r hr
    obtain ⟨x, hx, hrx⟩ := mem_findClosestAvailableSlots cfg now db s e r hr
    have hinv := mem_recommendationEntries_inv cfg now db s e x hx
    rw [hrx]
    show absoluteMinDuration ≤ x.endTime - x.startTime ∧
      (e - s) * (max 1 (min 100 cfg.minSlotDurationPercent)) ≤
        (x.endTime - x.startTime) * 100
    exact ⟨hinv.1 ▸ hinv.2.2.1, hinv.1 ▸ hinv.2.2.2.1⟩
  · simp only [findClosestAvailableSlots]
    by_cases h0 : (windowedSlots db now
        (s + (max 1 cfg.windowDays) * millisPerDay)).isEmpty
    · rw [if_pos h0]
      exact List.Pairwise.nil
    · rw [if_neg h0]
      apply List.pairwise_map.mpr
      apply List.Pairwise.sublist (List.take_sublist 10 _)
      have hsorted : List.Pairwise recommendationLE
          (List.insertionSort recommendationLE
            (recommendationEntries cfg now db s e)) :=
        List.sorted_insertionSort recommendationLE _
      refine hsorted.imp_of_mem ?_
      intro a b ha hb hle
      have hainv := mem_recommendationEntries_inv cfg now db s e a
        ((List.mem_insertionSort _).mp ha)
      have hbinv := mem_recommendationEntries_inv cfg now db s e b
        ((List.mem_insertionSort _).mp hb)
      show slotDistance s e a.startTime a.endTime ≤
        slotDistance s e b.startTime b.endTime
      rw [← hainv.2.2.2.2, ← hbinv.2.2.2.2]
      rcases hle with h | ⟨h, _⟩
      · exact le_of_lt h
      · exact le_of_eq h

/-- C5 witness: the single recommendation of a concrete run and its
minimum-duration bounds. -/
theorem c5_witness :
    (⟨"p1", "P", 3600000, 18000000⟩ : Recommendation) ∈
      findClosestAvailableSlots defaultConfig 0 exDbOverlapRec
        10800000 14400000 ∧
    (absoluteMinDuration ≤ (18000000 : Int) - 3600000 ∧
      ((14400000 : Int) - 10800000) *
          (max 1 (min 100 defaultConfig.minSlotDurationPercent)) ≤
        ((18000000 : Int) - 3600000) * 100) :=
  ⟨by decide,
    (c5_min_duration_and_sorted defaultConfig 0 exDbOverlapRec
      10800000 14400000).1 ⟨"p1", "P", 3600000, 18000000⟩ (by decide)⟩

/-- C6 counterexample: with `now = 0`, painter `p1` free over the whole
window `[1h, 5h)` (no bookings), and request `[3h, 4h)`, the surviving
free range overlaps the requested window, yet its recorded distance is
`|1h - 3h| = 2h = 7200000 ms`, not `0` as the claim states. -/
theorem c6_counterexample :
    recommendationEntries defaultConfig 0 exDbOverlapRec
        10800000 14400000 =
      [⟨"p1", "P", 3600000, 18000000, 14400000, 7200000, false⟩] ∧
    overlaps 3600000 18000000 10800000 14400000 ∧
    (7200000 : Int) ≠ 0 := by
  decide

/-- C6 (amended): for every surviving free range the engine records as
distance the `slotDistance` formula evaluated at the clipped start and the
range end: `request.start - range.end` when the range ends at or before
the request start; `clippedStart - request.end` when the clipped start is
at or after the request end; and otherwise (overlap with the request)
`|clippedStart - request.start|` — not `0`. -/
theorem c6_distance_formula (cfg : RecConfig) (now : Int) (db : DB)
    (s e : Int) :
    ∀ x ∈ recommendationEntries cfg now db s e,
      x.distanceFromRequested = slotDistance s e x.startTime x.endTime :=
  fun x hx => (mem_recommendationEntries_inv cfg now db s e x hx).2.2.2.2

/-- C6 witness: the amended distance formula on the single entry of a
concrete run. -/
theorem c6_witness :
    (⟨"p1", "P", 3600000, 18000000, 14400000, 7200000, false⟩ :
        FreeSlotEntry) ∈
      recommendationEntries defaultConfig 0 exDbOverlapRec
        10800000 14400000 ∧
    (7200000 : Int) = slotDistance 10800000 14400000 3600000 18000000 :=
  ⟨by decide,
    c6_distance_formula defaultConfig 0 exDbOverlapRec 10800000 14400000
      ⟨"p1", "P", 3600000, 18000000, 14400000, 7200000, false⟩
      (by decide)⟩

/-- C10: every returned recommendation satisfies
`now <= startTime < endTime`: free ranges that end at or before `now` are
discarded, a free range beginning before `now` is returned with its start
clipped forward to `now`, and the minimum-duration filter (measured from
the clipped start) forces a positive span. -/
theorem c10_recommendations_start_after_now (cfg : RecConfig) (now : Int)
    (db : DB) (s e : Int) :
    ∀ r ∈ findClosestAvailableSlots cfg now db s e,
      now ≤ r.startTime ∧ r.startTime < r.endTime := by
  intro r hr
  obtain ⟨x, hx, hrx⟩ := mem_findClosestAvailableSlots cfg now db s e r hr
  have hinv := mem_recommendationEntries_inv cfg now db s e x hx
  have hd : x.duration = x.endTime - x.startTime := hinv.1
  have hmin : absoluteMinDuration ≤ x.duration := hinv.2.2.1
  unfold absoluteMinDuration at hmin
  rw [hrx]
  show now ≤ x.startTime ∧ x.startTime < x.endTime
  exact ⟨hinv.2.1, by omega⟩

/-- C10 witness: the single recommendation of a concrete run starts at or
after `now = 0` and ends strictly later. -/
theorem c10_witness :
    (⟨"p1", "P", 3600000, 18000000⟩ : Recommendation) ∈
      findClosestAvailableSlots defaultConfig 0 exDbOverlapRec
        10800000 14400000 ∧
    ((0 : Int) ≤ 3600000 ∧ (3600000 : Int) < 18000000) :=
  ⟨by decide,
    c10_recommendations_start_after_now defaultConfig 0 exDbOverlapRec
      10800000 14400000 ⟨"p1", "P", 3600000, 18000000⟩ (by decide)⟩

/-! ### Free-range sweep (C4) -/

/-- Every free range emitted by the sweep starts at or after the cursor. -/
theorem freeRangesLoop_start_ge : ∀ (bs : List TimeRange) (c E : Int),
    ∀ f ∈ freeRangesLoop c E bs, c ≤ f.start := by
  intro bs
  induction bs with
  | nil =>
    intro c E f hf
    simp only [freeRangesLoop] at hf
    split at hf
    · obtain rfl := List.mem_singleton.mp hf
      exact le_rfl
    · exact absurd hf (List.not_mem_nil f)
  | cons b rest ih =>
    intro c E f hf
    simp only [freeRangesLoop] at hf
    split at hf
    · rcases List.mem_cons.mp hf with rfl | hf'
      · exact le_rfl
      · refine le_trans ?_ (ih (if c < b.stop then b.stop else c) E f hf')
        split <;> omega
    · refine le_trans ?_ (ih (if c < b.stop then b.stop else c) E f hf)
      split <;> omega

/-- When every busy range starts no later than the window end, every
emitted free range is nonempty and ends no later than the window end. -/
theorem freeRangesLoop_bounds : ∀ (bs : List TimeRange) (c E : Int),
    (∀ b ∈ bs, b.start ≤ E) →
    ∀ f ∈ freeRangesLoop c E bs, f.start < f.stop ∧ f.stop ≤ E := by
  intro bs
  induction bs with
  | nil =>
    intro c E _ f hf
    simp only [freeRangesLoop] at hf
    split at hf
    · obtain rfl := List.mem_singleton.mp hf
      exact ⟨by assumption, le_rfl⟩
    · exact absurd hf (List.not_mem_nil f)
  | cons b rest ih =>
    intro c E hbound f hf
    have hrest : ∀ b' ∈ rest, b'.start ≤ E :=
      fun b' hb' => hbound b' (List.mem_cons_of_mem b hb')
    simp only [freeRangesLoop] at hf
    split at hf
    · rcases List.mem_cons.mp hf with rfl | hf'
      · exact ⟨by assumption, hbound b (List.mem_cons_self b rest)⟩
      · exact ih _ E hrest f hf'
    · exact ih _ E hrest f hf

/-- When the busy ranges are valid (`start ≤ stop`), the emitted free
ranges are ordered and pairwise disjoint: each one ends no later than the
next one starts. -/
theorem freeRangesLoop_pairwise : ∀ (bs : List TimeRange) (c E : Int),
    (∀ b ∈ bs, b.start ≤ b.stop) →
    List.Pairwise (fun f g => f.stop ≤ g.start) (freeRangesLoop c E bs) := by
  intro bs
  induction bs with
  | nil =>
    intro c E _
    simp only [freeRangesLoop]
    split
    · exact List.pairwise_singleton _ _
    · exact List.Pairwise.nil
  | cons b rest ih =>
    intro c E hval
    have hrest : ∀ b' ∈ rest, b'.start ≤ b'.stop :=
      fun b' hb' => hval b' (List.mem_cons_of_mem b hb')
    have hbv : b.start ≤ b.stop := hval b (List.mem_cons_self b rest)
    simp only [freeRangesLoop]
    split
    · refine List.pairwise_cons.mpr ⟨?_, ih _ E hrest⟩
      intro g hg
      have hge := freeRangesLoop_start_ge rest
        (if c < b.stop then b.stop else c) E g hg
      have : b.stop ≤ (if c < b.stop then b.stop else c) := by
        split <;> omega
      show b.start ≤ g.start
      omega
    · exact ih _ E hrest

/-- No emitted free range overlaps (half-open) any busy range of the
sorted input list. -/
theorem freeRangesLoop_no_overlap : ∀ (bs : List TimeRange) (c E : Int),
    List.Pairwise (fun a b => a.start ≤ b.start) bs →
    ∀ f ∈ freeRangesLoop c E bs, ∀ b ∈ bs,
      ¬ (f.start < b.stop ∧ b.start < f.stop) := by
  intro bs
  induction bs with
  | nil =>
    intro c E _ f _ b hb
    exact absurd hb (List.not_mem_nil b)
  | cons b rest ih =>
    intro c E hsorted f hf b0 hb0
    obtain ⟨hhead, hrest⟩ := List.pairwise_cons.mp hsorted
    simp only [freeRangesLoop] at hf
    have htail : ∀ g, g ∈ freeRangesLoop
        (if c < b.stop then b.stop else c) E rest →
        ¬ (g.start < b0.stop ∧ b0.start < g.stop) := by
      intro g hg
      have hge := freeRangesLoop_start_ge rest
        (if c < b.stop then b.stop else c) E g hg
      rcases List.mem_cons.mp hb0 with heq | hb0'
      · have hbs : b.stop ≤ (if c < b.stop then b.stop else c) := by
          split <;> omega
        rintro ⟨h1, _⟩
        rw [heq] at h1
        omega
      · exact ih (if c < b.stop then b.stop else c) E hrest g hg b0 hb0'
    split at hf
    · rcases List.mem_cons.mp hf with heqf | hf'
      · rcases List.mem_cons.mp hb0 with heq | hb0'
        · rintro ⟨_, h2⟩
          rw [heqf, heq] at h2
          exact absurd h2 (lt_irrefl _)
        · rintro ⟨_, h2⟩
          rw [heqf] at h2
          have h3 : b.start ≤ b0.start := hhead b0 hb0'
          have h2' : b0.start < b.start := h2
          omega
      · exact htail f hf'
    · exact htail f hf

/-- Every point of the window not covered by a busy range is covered by
an emitted free range. -/
theorem freeRangesLoop_cover : ∀ (bs : List TimeRange) (c E t : Int),
    c ≤ t → t < E → (∀ b ∈ bs, ¬ (b.start ≤ t ∧ t < b.stop)) →
    ∃ f ∈ freeRangesLoop c E bs, f.start ≤ t ∧ t < f.stop := by
  intro bs
  induction bs with
  | nil =>
    intro c E t hct htE _
    simp only [freeRangesLoop]
    rw [if_pos (lt_of_le_of_lt hct htE)]
    exact ⟨⟨c, E⟩, List.mem_singleton_self _, hct, htE⟩
  | cons b rest ih =>
    intro c E t hct htE hnb
    simp only [freeRangesLoop]
    by_cases hb : t < b.start
    · rw [if_pos (lt_of_le_of_lt hct hb)]
      exact ⟨⟨c, b.start⟩, List.mem_cons_self _ _, hct, hb⟩
    · push_neg at hb
      have hstop : b.stop ≤ t := by
        have := hnb b (List.mem_cons_self b rest)
        omega
      have hct' : (if c < b.stop then b.stop else c) ≤ t := by
        split <;> omega
      obtain ⟨f, hf, hft⟩ := ih _ E t hct' htE
        (fun b' hb' => hnb b' (List.mem_cons_of_mem b hb'))
      refine ⟨f, ?_, hft⟩
      split
      · exact List.mem_cons_of_mem _ hf
      · exact hf

/-- C4 counterexample: for the valid window `[0, 10)` and the single
valid busy range `[20, 30)` (which starts after the window ends), the
sweep emits the free range `[0, 20)`, which does not lie inside the
window, so the union of free and clipped busy ranges does not reconstruct
the window. -/
theorem c4_counterexample :
    calculateFreeRanges 0 10 [⟨20, 30⟩] = [⟨0, 20⟩] ∧
    ((0 : Int) < 10) ∧ ((20 : Int) ≤ 30) ∧ ¬ ((20 : Int) ≤ 10) := by
  decide

/-- C4 (amended): for every window with `start < end` and every finite
list of valid busy ranges (in any order, possibly overlapping each other)
EACH STARTING NO LATER THAN THE WINDOW END — as is guaranteed at the call
sites, which pass only bookings overlapping the window — `subtract`
returns an ordered list of pairwise-disjoint free ranges lying inside the
window, none of which overlaps any input busy range, and every window
point lies in a free range or in a busy range (together with disjointness:
the union of the free ranges with the busy ranges clipped to the window
exactly reconstructs the window, with no double-counting). -/
theorem c4_free_ranges_partition (wS wE : Int) (busy : List TimeRange)
    (hw : wS < wE)
    (hval : ∀ b ∈ busy, b.start ≤ b.stop)
    (hbound : ∀ b ∈ busy, b.start ≤ wE) :
    List.Pairwise (fun f g => f.stop ≤ g.start)
      (calculateFreeRanges wS wE busy) ∧
    (∀ f ∈ calculateFreeRanges wS wE busy,
      wS ≤ f.start ∧ f.start < f.stop ∧ f.stop ≤ wE) ∧
    (∀ f ∈ calculateFreeRanges wS wE busy, ∀ b ∈ busy,
      ¬ overlaps f.start f.stop b.start b.stop) ∧
    (∀ t : Int, wS ≤ t → t < wE →
      (∃ f ∈ calculateFreeRanges wS wE busy, f.start ≤ t ∧ t < f.stop) ∨
      (∃ b ∈ busy, b.start ≤ t ∧ t < b.stop)) := by
  unfold calculateFreeRanges
  by_cases hempty : busy.isEmpty
  · obtain rfl : busy = [] := List.isEmpty_iff.mp hempty
    rw [if_pos hempty]
    refine ⟨List.pairwise_singleton _ _, ?_, ?_, ?_⟩
    · intro f hf
      obtain rfl := List.mem_singleton.mp hf
      exact ⟨le_rfl, hw, le_rfl⟩
    · intro f _ b hb
      exact absurd hb (List.not_mem_nil b)
    · intro t h1 h2
      exact Or.inl ⟨⟨wS, wE⟩, List.mem_singleton_self _, h1, h2⟩
  · rw [if_neg hempty]
    have hperm := List.perm_insertionSort
      (fun a b : TimeRange => a.start ≤ b.start) busy
    have hmem : ∀ b : TimeRange,
        b ∈ List.insertionSort
          (fun a b : TimeRange => a.start ≤ b.start) busy ↔ b ∈ busy :=
      fun b => hperm.mem_iff
    have hsorted := List.sorted_insertionSort
      (fun a b : TimeRange => a.start ≤ b.start) busy
    have hvalL : ∀ b ∈ List.insertionSort
        (fun a b : TimeRange => a.start ≤ b.start) busy,
        b.start ≤ b.stop := fun b hb => hval b ((hmem b).mp hb)
    have hboundL : ∀ b ∈ List.insertionSort
        (fun a b : TimeRange => a.start ≤ b.start) busy,
        b.start ≤ wE := fun b hb => hbound b ((hmem b).mp hb)
    refine ⟨freeRangesLoop_pairwise _ wS wE hvalL, ?_, ?_, ?_⟩
    · intro f hf
      exact ⟨freeRangesLoop_start_ge _ wS wE f hf,
        freeRangesLoop_bounds _ wS wE hboundL f hf⟩
    · intro f hf b hb
      exact freeRangesLoop_no_overlap _ wS wE hsorted f hf b ((hmem b).mpr hb)
    · intro t h1 h2
      by_cases hbusy : ∃ b ∈ busy, b.start ≤ t ∧ t < b.stop
      · exact Or.inr hbusy
      · refine Or.inl (freeRangesLoop_cover _ wS wE t h1 h2 ?_)
        intro b hb hcontra
        exact hbusy ⟨b, (hmem b).mp hb, hcontra⟩

/-- C4 witness: the amended partition property on the concrete window
`[0, 10)` with the single busy range `[2, 4)`. -/
theorem c4_witness :
    (((0 : Int) < 10) ∧
      (∀ b ∈ [(⟨2, 4⟩ : TimeRange)], b.start ≤ b.stop) ∧
      (∀ b ∈ [(⟨2, 4⟩ : TimeRange)], b.start ≤ 10)) ∧
    List.Pairwise (fun f g => f.stop ≤ g.start)
      (calculateFreeRanges 0 10 [⟨2, 4⟩]) :=
  ⟨⟨by decide, by decide, by decide⟩,
    (c4_free_ranges_partition 0 10 [⟨2, 4⟩] (by decide) (by decide)
      (by decide)).1⟩

end PainterBooking
